import Mathlib

/-!
Verification of the task/subject state-synchronization model of the
academic-manager TaskManager component (`src/components/task-manager.tsx`,
partitioned variant).

The component keeps four local containers — a subject mirror, a full task
mirror (`tasks`), and two derived partitions (`completedTasks`,
`notCompletedTasks`) — plus form/modal fields, and synchronizes them with a
remote row store through six operations: `fetchData`, `addSubject`,
`addTask`, `editTask`, `deleteTask`, `toggleTaskStatus`.  Each mutating
operation issues one remote call and patches the local containers only when
that call succeeds; every remote response is modelled as an explicit
`Except Unit _` argument to the corresponding transition function.
-/

namespace TaskManager

/-- A row of the `subjects` table, as mirrored locally. -/
structure Subject where
  id : String
  name : String
  color : String
  created_at : String
deriving Repr, DecidableEq

/-- A row of the `tasks` table, with the optional denormalized subject
snapshot returned by the joined select. -/
structure Task where
  id : String
  subject_id : String
  name : String
  completed : Bool
  created_at : String
  subjects : Option Subject
deriving Repr, DecidableEq

/-- The component's local state: the four data containers plus the
form/modal fields that the operations read and reset. -/
structure ManagerState where
  subjects : List Subject
  tasks : List Task
  completedTasks : List Task
  notCompletedTasks : List Task
  newSubjectName : String
  newTaskName : String
  selectedSubjectId : String
  loading : Bool
  addSubjectModalOpen : Bool
  addTaskModalOpen : Bool
  completedTasksToggle : Bool
  editTaskModalOpen : Bool
  taskEditId : Option String
deriving Repr, DecidableEq

/-- The `useState` initial values. -/
def initialState : ManagerState :=
  { subjects := []
    tasks := []
    completedTasks := []
    notCompletedTasks := []
    newSubjectName := ""
    newTaskName := ""
    selectedSubjectId := ""
    loading := true
    addSubjectModalOpen := false
    addTaskModalOpen := false
    completedTasksToggle := false
    editTaskModalOpen := false
    taskEditId := none }

/-- Whitespace as recognized by JavaScript's `String.prototype.trim` on the
ASCII range (space, tab, line feed, carriage return, vertical tab, form
feed). -/
def isSpace (c : Char) : Bool :=
  c = ' ' ∨ c = '\t' ∨ c = '\n' ∨ c = '\r' ∨ c = '\x0b' ∨ c = '\x0c'

/-- JavaScript's `String.prototype.trim`: strips leading and trailing
whitespace. -/
def trim (s : String) : String :=
  ⟨((s.data.dropWhile isSpace).reverse.dropWhile isSpace).reverse⟩

/-- Operation `fetchData`: on success replaces the subject mirror, the full task
mirror, and recomputes both partitions by filtering on `completed`; on
remote failure only `loading` is cleared (the `finally` block). -/
def fetchData (s : ManagerState) :
    Except Unit (List Subject × List Task) → ManagerState
  | .error _ => { s with loading := false }
  | .ok (subjectsData, tasksData) =>
      { s with
        subjects := subjectsData
        tasks := tasksData
        completedTasks := tasksData.filter (fun t => t.completed)
        notCompletedTasks := tasksData.filter (fun t => !t.completed)
        loading := false }

/-- The fixed color palette of `addSubject`. -/
def colors : List String :=
  ["#ef4444", "#10b981", "#f59e0b", "#8b5cf6", "#06b6d4", "#f97316"]

/-- The insert payload `addSubject` sends to the remote store, or `none`
when the guard `!newSubjectName.trim()` short-circuits before any remote
call.  `k` is the index `Math.floor(Math.random() * colors.length)` drawn
for the color. -/
def addSubjectRequest (s : ManagerState) (k : Fin colors.length) :
    Option (String × String) :=
  if trim s.newSubjectName = "" then none
  else some (trim s.newSubjectName, colors.get k)

/-- Operation `addSubject`: no-op when the trimmed name is empty; otherwise, on a
successful remote insert, appends the store-returned row to the subject
mirror and resets the form/modal fields; on failure nothing changes. -/
def addSubject (s : ManagerState) (resp : Except Unit Subject) :
    ManagerState :=
  if trim s.newSubjectName = "" then s
  else
    match resp with
    | .error _ => s
    | .ok data =>
        { s with
          subjects := s.subjects ++ [data]
          addSubjectModalOpen := false
          newSubjectName := "" }

/-- The insert payload `addTask` sends (name, subject_id, completed), or
`none` when the guard `!newTaskName.trim() || !selectedSubjectId`
short-circuits before any remote call. -/
def addTaskRequest (s : ManagerState) : Option (String × String × Bool) :=
  if trim s.newTaskName = "" ∨ s.selectedSubjectId = "" then none
  else some (trim s.newTaskName, s.selectedSubjectId, false)

/-- Operation `addTask`: no-op when the trimmed name or the selected subject id is
empty; otherwise, on a successful remote insert, prepends the
store-returned row to the full task mirror and to the incomplete
partition, and resets the form/modal fields. -/
def addTask (s : ManagerState) (resp : Except Unit Task) : ManagerState :=
  if trim s.newTaskName = "" ∨ s.selectedSubjectId = "" then s
  else
    match resp with
    | .error _ => s
    | .ok data =>
        { s with
          tasks := data :: s.tasks
          notCompletedTasks := data :: s.notCompletedTasks
          newTaskName := ""
          addTaskModalOpen := false
          selectedSubjectId := "" }

/-- Operation `editTask`: resolves empty `updatedName` / `updatedSubjectId` from the
record found in the FULL task mirror (`tasks.find(task => task.id ===
taskEditId)`), issues the remote update, and on success maps both
partitions, patching `name`/`subject_id` of the entries whose id equals
`taskEditId`.  The full task mirror itself is never written. -/
def editTask (s : ManagerState) (updatedName updatedSubjectId : String)
    (resp : Except Unit Unit) : ManagerState :=
  let found := s.tasks.find? (fun t => s.taskEditId = some t.id)
  let updatedSubjectId :=
    if updatedSubjectId = "" then (found.map Task.subject_id).getD ""
    else updatedSubjectId
  let updatedName :=
    if updatedName = "" then (found.map Task.name).getD "" else updatedName
  match resp with
  | .error _ => s
  | .ok _ =>
      { s with
        notCompletedTasks := s.notCompletedTasks.map (fun t =>
          if s.taskEditId = some t.id then
            { t with name := updatedName, subject_id := updatedSubjectId }
          else t)
        completedTasks := s.completedTasks.map (fun t =>
          if s.taskEditId = some t.id then
            { t with name := updatedName, subject_id := updatedSubjectId }
          else t)
        editTaskModalOpen := false
        taskEditId := none
        newTaskName := ""
        selectedSubjectId := "" }

/-- Operation `deleteTask`: on a successful remote delete, filters the id out of the
full mirror and both partitions; on failure nothing changes. -/
def deleteTask (s : ManagerState) (taskId : String)
    (resp : Except Unit Unit) : ManagerState :=
  match resp with
  | .error _ => s
  | .ok _ =>
      { s with
        tasks := s.tasks.filter (fun t => t.id ≠ taskId)
        notCompletedTasks := s.notCompletedTasks.filter (fun t => t.id ≠ taskId)
        completedTasks := s.completedTasks.filter (fun t => t.id ≠ taskId) }

/-- Operation `toggleTaskStatus`: on a successful remote update, patches `completed`
of the matching entry in the full mirror, and moves a copy of the task —
taken from the PRE-update mirror snapshot (`tasks.find(...)` reads the
closure value) — into the target partition while filtering its id out of
the other partition.  The copy is appended unconditionally, with no check
that the target partition does not already hold the id. -/
def toggleTaskStatus (s : ManagerState) (taskId : String) (completed : Bool)
    (resp : Except Unit Unit) : ManagerState :=
  match resp with
  | .error _ => s
  | .ok _ =>
      let tasks' := s.tasks.map (fun t =>
        if t.id = taskId then { t with completed := completed } else t)
      match s.tasks.find? (fun t => t.id = taskId) with
      | none => { s with tasks := tasks' }
      | some updatedTask =>
          if completed then
            { s with
              tasks := tasks'
              completedTasks :=
                s.completedTasks ++ [{ updatedTask with completed := completed }]
              notCompletedTasks :=
                s.notCompletedTasks.filter (fun t => t.id ≠ taskId) }
          else
            { s with
              tasks := tasks'
              notCompletedTasks :=
                s.notCompletedTasks ++ [{ updatedTask with completed := completed }]
              completedTasks :=
                s.completedTasks.filter (fun t => t.id ≠ taskId) }

/-- States reachable from the initial state by sequences of the component's
operations.  Remote responses are step parameters (the store is an oracle);
the `loadOk` and `addTaskOk` steps carry the relational store's key
contract — rows of a table have pairwise-distinct ids, and an insert
returns a row with a freshly generated id — which the client code relies
on.  The `setForm` step covers the UI `onChange`/`onClick` handlers that
write the form/modal fields without touching the data containers. -/
inductive Reachable : ManagerState → Prop where
  | init : Reachable initialState
  | loadErr {s : ManagerState} :
      Reachable s → Reachable (fetchData s (.error ()))
  | loadOk {s : ManagerState} {subjectsData : List Subject}
      {tasksData : List Task} :
      Reachable s → (tasksData.map Task.id).Nodup →
      Reachable (fetchData s (.ok (subjectsData, tasksData)))
  | addSubjectStep {s : ManagerState} {resp : Except Unit Subject} :
      Reachable s → Reachable (addSubject s resp)
  | addTaskErr {s : ManagerState} :
      Reachable s → Reachable (addTask s (.error ()))
  | addTaskOk {s : ManagerState} {data : Task} :
      Reachable s → data.id ∉ s.tasks.map Task.id →
      Reachable (addTask s (.ok data))
  | editTaskStep {s : ManagerState} {n sid : String}
      {resp : Except Unit Unit} :
      Reachable s → Reachable (editTask s n sid resp)
  | deleteTaskStep {s : ManagerState} {taskId : String}
      {resp : Except Unit Unit} :
      Reachable s → Reachable (deleteTask s taskId resp)
  | toggleStep {s : ManagerState} {taskId : String} {c : Bool}
      {resp : Except Unit Unit} :
      Reachable s → Reachable (toggleTaskStatus s taskId c resp)
  | setForm {s : ManagerState} (nsn ntn ssid : String) (tid : Option String)
      (m1 m2 m3 m4 : Bool) :
      Reachable s →
      Reachable { s with
        newSubjectName := nsn
        newTaskName := ntn
        selectedSubjectId := ssid
        taskEditId := tid
        addSubjectModalOpen := m1
        addTaskModalOpen := m2
        completedTasksToggle := m3
        editTaskModalOpen := m4 }

/-- The task ids held by a container. -/
def idsOf (l : List Task) : List String := l.map Task.id

/-- The id-level partition invariant: the incomplete and completed
partitions' id sets union to the full mirror's id set and are disjoint. -/
def partitionIdInvariant (s : ManagerState) : Prop :=
  (∀ i, i ∈ idsOf s.tasks ↔
      i ∈ idsOf s.notCompletedTasks ∨ i ∈ idsOf s.completedTasks) ∧
  ∀ i, i ∈ idsOf s.notCompletedTasks → i ∉ idsOf s.completedTasks

/-- The record-level partition property: every record of the full mirror
appears, with identical fields, in the partition matching its `completed`
flag, and every partition record appears identically in the full mirror
with the matching flag. -/
def exactPartition (s : ManagerState) : Prop :=
  (∀ t ∈ s.tasks,
      t ∈ (if t.completed then s.completedTasks else s.notCompletedTasks)) ∧
  (∀ t ∈ s.completedTasks, t.completed = true ∧ t ∈ s.tasks) ∧
  ∀ t ∈ s.notCompletedTasks, t.completed = false ∧ t ∈ s.tasks

instance (s : ManagerState) : Decidable (exactPartition s) := by
  unfold exactPartition
  infer_instance

/-- A sample task row named "Old", used in concrete scenarios. -/
def tOld : Task :=
  { id := "t1", subject_id := "s1", name := "Old", completed := false,
    created_at := "T1", subjects := none }

/-- State after loading the single task `tOld` into an initial state. -/
def loadedOld : ManagerState := fetchData initialState (.ok ([], [tOld]))

/-- State `loadedOld` with the edit modal targeting task "t1". -/
def editReady : ManagerState := { loadedOld with taskEditId := some "t1" }

/-- State after `editTask("New", "")` on `editReady`: the partitions hold
the name "New" while the full mirror still holds "Old". -/
def afterRename : ManagerState := editTask editReady "New" "" (.ok ())

/-- State `afterRename` with the edit modal targeting task "t1" again. -/
def editReady2 : ManagerState := { afterRename with taskEditId := some "t1" }

/-- State after `editTask("", "s2")` on `editReady2`. -/
def afterFallbackEdit : ManagerState := editTask editReady2 "" "s2" (.ok ())

/-- Index 0 into the color palette. -/
def k0 : Fin colors.length := ⟨0, by decide⟩

/-- A sample subject row as returned by the store for `addSubject`. -/
def sMath : Subject :=
  { id := "s1", name := "Math", color := "#ef4444", created_at := "T0" }

/-- A state whose task form holds a whitespace-only name. -/
def blankAddState : ManagerState :=
  { initialState with newTaskName := "   ", selectedSubjectId := "s1" }

/-- A state whose subject form holds a whitespace-only name. -/
def blankSubjectState : ManagerState :=
  { initialState with newSubjectName := " " }

/-- A state whose subject form holds the name "Math". -/
def mathSubjectState : ManagerState :=
  { initialState with newSubjectName := "Math" }

/-- State after toggling "t1" to completed once from `editReady`. -/
def toggledOnce : ManagerState := toggleTaskStatus editReady "t1" true (.ok ())

/-- C5: for every mutating operation (addSubject, addTask, editTask,
toggleCompletion, deleteTask), a failed remote call leaves the entire
local state — subjects mirror, full task mirror, both partitions, and all
form/modal fields — exactly as it was: the remote call precedes any local
mutation, and the error branch performs none. -/
theorem remote_failure_frame (s : ManagerState) (n sid taskId : String)
    (c : Bool) :
    addSubject s (.error ()) = s ∧
    addTask s (.error ()) = s ∧
    editTask s n sid (.error ()) = s ∧
    toggleTaskStatus s taskId c (.error ()) = s ∧
    deleteTask s taskId (.error ()) = s := by
  refine ⟨?_, ?_, rfl, rfl, rfl⟩
  · unfold addSubject; split <;> rfl
  · unfold addTask; split <;> rfl

/-- C9: editTask never writes the full task mirror (nor the subjects
mirror, loading flag, or the other modal flags): whatever the arguments
and the remote outcome, only the two partitions and the edit-form fields
can change. -/
theorem editTask_never_writes_task_mirror (s : ManagerState) (n sid : String)
    (r : Except Unit Unit) :
    (editTask s n sid r).tasks = s.tasks ∧
    (editTask s n sid r).subjects = s.subjects ∧
    (editTask s n sid r).loading = s.loading ∧
    (editTask s n sid r).addSubjectModalOpen = s.addSubjectModalOpen ∧
    (editTask s n sid r).addTaskModalOpen = s.addTaskModalOpen ∧
    (editTask s n sid r).completedTasksToggle = s.completedTasksToggle ∧
    (editTask s n sid r).newSubjectName = s.newSubjectName := by
  cases r <;> exact ⟨rfl, rfl, rfl, rfl, rfl, rfl, rfl⟩

/-- C6: a successful deleteTask removes the id from all three containers,
and a second deleteTask of the same id — whether its remote call reports
success or a "not found" error — leaves the local state unchanged. -/
theorem deleteTask_removes_everywhere_idempotent (s : ManagerState)
    (taskId : String) :
    (∀ t ∈ (deleteTask s taskId (.ok ())).tasks, t.id ≠ taskId) ∧
    (∀ t ∈ (deleteTask s taskId (.ok ())).completedTasks, t.id ≠ taskId) ∧
    (∀ t ∈ (deleteTask s taskId (.ok ())).notCompletedTasks, t.id ≠ taskId) ∧
    ∀ r : Except Unit Unit,
      deleteTask (deleteTask s taskId (.ok ())) taskId r =
        deleteTask s taskId (.ok ()) := by
  refine ⟨?_, ?_, ?_, ?_⟩
  · intro t ht
    simpa using (List.mem_filter.mp ht).2
  · intro t ht
    simpa using (List.mem_filter.mp ht).2
  · intro t ht
    simpa using (List.mem_filter.mp ht).2
  · intro r
    cases r with
    | error e => rfl
    | ok v =>
        show ManagerState.mk _ _ _ _ _ _ _ _ _ _ _ _ _ = ManagerState.mk _ _ _ _ _ _ _ _ _ _ _ _ _
        simp [deleteTask, List.filter_filter]

/-- C7: addTask with an empty selected subject id, or a task name that is
empty after trimming, changes nothing (for any remote outcome) and issues
no remote insert. -/
theorem addTask_blank_noop (s : ManagerState)
    (h : trim s.newTaskName = "" ∨ s.selectedSubjectId = "") :
    (∀ resp, addTask s resp = s) ∧ addTaskRequest s = none := by
  constructor
  · intro resp; unfold addTask; rw [if_pos h]
  · unfold addTaskRequest; rw [if_pos h]

/-- C7 witness: the whitespace-name state is untouched and no insert is
issued. -/
theorem addTask_blank_noop_witness :
    (∀ resp, addTask blankAddState resp = blankAddState) ∧
    addTaskRequest blankAddState = none :=
  addTask_blank_noop blankAddState (Or.inl (by decide))

/-- C8: addSubject with a name that trims to empty is a no-op issuing no
remote insert; with a non-blank name it requests an insert whose color is
drawn from the fixed 6-entry palette, and when the store echoes that row
back successfully, the store-returned record — its color one of the
palette — is appended to the subjects mirror. -/
theorem addSubject_palette_append (s : ManagerState) (k : Fin colors.length)
    (data : Subject) (hecho : data.color = colors.get k) :
    (trim s.newSubjectName = "" →
      (∀ r, addSubject s r = s) ∧ addSubjectRequest s k = none) ∧
    (trim s.newSubjectName ≠ "" →
      addSubjectRequest s k = some (trim s.newSubjectName, colors.get k) ∧
      data.color ∈ colors ∧
      (addSubject s (.ok data)).subjects = s.subjects ++ [data]) := by
  constructor
  · intro hblank
    refine ⟨fun r => ?_, ?_⟩
    · unfold addSubject; rw [if_pos hblank]
    · unfold addSubjectRequest; rw [if_pos hblank]
  · intro hne
    refine ⟨?_, ?_, ?_⟩
    · unfold addSubjectRequest; rw [if_neg hne]
    · rw [hecho]; exact colors.get_mem k.1 k.2
    · unfold addSubject; rw [if_neg hne]

/-- C8 witness: the whitespace-name state is untouched with no insert
requested, and from the "Math" state the echoed palette-colored row is
appended. -/
theorem addSubject_palette_append_witness :
    ((∀ r, addSubject blankSubjectState r = blankSubjectState) ∧
      addSubjectRequest blankSubjectState k0 = none) ∧
    (addSubjectRequest mathSubjectState k0 =
        some (trim "Math", colors.get k0) ∧
      sMath.color ∈ colors ∧
      (addSubject mathSubjectState (.ok sMath)).subjects = [] ++ [sMath]) :=
  ⟨(addSubject_palette_append blankSubjectState k0 sMath (by decide)).1
      (by decide),
   (addSubject_palette_append mathSubjectState k0 sMath (by decide)).2
      (by decide)⟩

/-- Finding by id commutes with mapping an id-preserving function. -/
theorem find?_id_map (l : List Task) (f : Task → Task) (p : String)
    (hf : ∀ t, (f t).id = t.id) :
    (l.map f).find? (fun u => u.id = p) =
      (l.find? (fun u => u.id = p)).map f := by
  induction l with
  | nil => rfl
  | cons a l ih =>
    by_cases h : a.id = p
    · rw [List.map_cons, List.find?_cons_of_pos _ (by simp [hf, h]),
        List.find?_cons_of_pos _ (by simp [h])]
      rfl
    · rw [List.map_cons, List.find?_cons_of_neg _ (by simp [hf, h]),
        List.find?_cons_of_neg _ (by simp [h]), ih]

/-- C1 (violated by the code): the record-level partition invariant — the
two partitions are exactly the partition of the full mirror by `completed`,
with identical fields — holds in the reachable state `editReady`, yet a
single successful `editTask` breaks it: the rename lands in the partitions
while the full mirror keeps the old name. -/
theorem editTask_violates_exactPartition :
    Reachable editReady ∧ exactPartition editReady ∧
    ¬ exactPartition (editTask editReady "New" "" (.ok ())) := by
  refine ⟨?_, by decide, by decide⟩
  have h0 : Reachable loadedOld :=
    Reachable.loadOk Reachable.init (by decide)
  exact Reachable.setForm "" "" "" (some "t1") false false false false h0

/-- C3 counterexample: in the reachable state `editReady2` the incomplete
partition's entry for "t1" is currently named "New", yet
`editTask("", "s2")` resolves the empty-name fallback from the full mirror
and writes "Old" — the current name held by the partition is not
retained. -/
theorem editTask_partition_fallback_cex :
    Reachable editReady2 ∧
    (editReady2.notCompletedTasks.find? (fun t => t.id = "t1")).map Task.name
      = some "New" ∧
    ((editTask editReady2 "" "s2" (.ok ())).notCompletedTasks.find?
        (fun t => t.id = "t1")).map Task.name = some "Old" ∧
    ("Old" : String) ≠ "New" := by
  refine ⟨?_, by decide, by decide, by decide⟩
  have h0 : Reachable loadedOld :=
    Reachable.loadOk Reachable.init (by decide)
  have h1 : Reachable editReady :=
    Reachable.setForm "" "" "" (some "t1") false false false false h0
  have h2 : Reachable afterRename := Reachable.editTaskStep h1
  exact Reachable.setForm "" "" "" (some "t1") false false false false h2

/-- C3 amended: the empty-argument fallback of editTask is resolved from
the task's record in the FULL task mirror (not from the partition holding
the task): on a successful update with empty `newName`, both partitions'
matching entries take the mirror record's name, and an empty
`newSubjectId` likewise falls back to the mirror record's `subject_id`;
a non-empty `newSubjectId` is written as given. -/
theorem editTask_empty_args_mirror_fallback (s : ManagerState)
    (taskId sid : String) (t : Task)
    (hid : s.taskEditId = some taskId)
    (hfind : s.tasks.find? (fun u => s.taskEditId = some u.id) = some t)
    (hsid : sid ≠ "") :
    (editTask s "" sid (.ok ())).notCompletedTasks =
      s.notCompletedTasks.map (fun u =>
        if u.id = taskId then { u with name := t.name, subject_id := sid }
        else u) ∧
    (editTask s "" sid (.ok ())).completedTasks =
      s.completedTasks.map (fun u =>
        if u.id = taskId then { u with name := t.name, subject_id := sid }
        else u) ∧
    (editTask s "" "" (.ok ())).notCompletedTasks =
      s.notCompletedTasks.map (fun u =>
        if u.id = taskId then
          { u with name := t.name, subject_id := t.subject_id }
        else u) ∧
    (editTask s "" "" (.ok ())).completedTasks =
      s.completedTasks.map (fun u =>
        if u.id = taskId then
          { u with name := t.name, subject_id := t.subject_id }
        else u) := by
  have hcond : ∀ u : Task, (s.taskEditId = some u.id) = (u.id = taskId) := by
    intro u
    rw [hid]
    exact propext ⟨fun h => (Option.some_inj.mp h).symm, fun h => by rw [h]⟩
  have hfind' : s.tasks.find? (fun u => u.id = taskId) = some t := by
    simpa only [hcond] using hfind
  refine ⟨?_, ?_, ?_, ?_⟩ <;>
    simp only [editTask, hcond, hfind', Option.map_some', Option.getD_some,
      if_pos rfl, if_neg hsid, if_true, ite_true, eq_self_iff_true]

/-- C3 amended witness: on `editReady` (task "t1" named "Old" in a
consistent state), `editTask("", "s2")` leaves the name "Old" and sets
`subject_id` to "s2" in the incomplete partition. -/
theorem editTask_empty_args_mirror_fallback_witness :
    (editTask editReady "" "s2" (.ok ())).notCompletedTasks =
      editReady.notCompletedTasks.map (fun u =>
        if u.id = "t1" then { u with name := tOld.name, subject_id := "s2" }
        else u) ∧
    (editTask editReady "" "s2" (.ok ())).completedTasks =
      editReady.completedTasks.map (fun u =>
        if u.id = "t1" then { u with name := tOld.name, subject_id := "s2" }
        else u) ∧
    (editTask editReady "" "" (.ok ())).notCompletedTasks =
      editReady.notCompletedTasks.map (fun u =>
        if u.id = "t1" then
          { u with name := tOld.name, subject_id := tOld.subject_id }
        else u) ∧
    (editTask editReady "" "" (.ok ())).completedTasks =
      editReady.completedTasks.map (fun u =>
        if u.id = "t1" then
          { u with name := tOld.name, subject_id := tOld.subject_id }
        else u) :=
  editTask_empty_args_mirror_fallback editReady "t1" "s2" tOld (by decide)
    (by decide) (by decide)

/-- C4: for a task id present in the full mirror, toggling to completed and
immediately back to incomplete (both remote calls succeeding) leaves the
full mirror identical except for that task's `completed` flag, now false,
and places the task, with `completed := false` and all other fields
intact, in the incomplete partition. -/
theorem toggle_true_false_roundtrip (s : ManagerState) (taskId : String)
    (t : Task)
    (hfind : s.tasks.find? (fun u => u.id = taskId) = some t) :
    (toggleTaskStatus (toggleTaskStatus s taskId true (.ok ())) taskId false
        (.ok ())).tasks =
      s.tasks.map (fun u =>
        if u.id = taskId then { u with completed := false } else u) ∧
    { t with completed := false } ∈
      (toggleTaskStatus (toggleTaskStatus s taskId true (.ok ())) taskId false
        (.ok ())).notCompletedTasks := by
  have ht : t.id = taskId := by simpa using List.find?_some hfind
  have hfpres : ∀ u : Task,
      ((fun u => if u.id = taskId then { u with completed := true } else u)
        u).id = u.id := by
    intro u; by_cases h : u.id = taskId <;> simp [h]
  have h2 : (s.tasks.map (fun u =>
      if u.id = taskId then { u with completed := true } else u)).find?
        (fun u => u.id = taskId) = some { t with completed := true } := by
    rw [find?_id_map _ _ _ hfpres, hfind]
    simp [ht]
  constructor
  · simp only [toggleTaskStatus, hfind, h2, Bool.false_eq_true, if_false,
      if_true, ite_true, ite_false]
    rw [List.map_map]
    apply List.map_congr_left
    intro u _
    by_cases h : u.id = taskId <;> simp [Function.comp, h]
  · simp only [toggleTaskStatus, hfind, h2, Bool.false_eq_true, if_false,
      if_true, ite_true, ite_false]
    simp

/-- C10: toggling a task to the completion value its mirror record already
has appends another copy of the record to the matching partition — there
is no membership check — while the number of entries for that id in the
full mirror is unchanged, so the partition can accumulate duplicates. -/
theorem toggle_same_flag_appends_duplicate (s : ManagerState)
    (taskId : String) (t : Task) (c : Bool)
    (hfind : s.tasks.find? (fun u => u.id = taskId) = some t)
    (hc : t.completed = c) :
    (c = true →
      (toggleTaskStatus s taskId c (.ok ())).completedTasks =
        s.completedTasks ++ [t]) ∧
    (c = false →
      (toggleTaskStatus s taskId c (.ok ())).notCompletedTasks =
        s.notCompletedTasks ++ [t]) ∧
    (toggleTaskStatus s taskId c (.ok ())).tasks.countP
        (fun u => u.id = taskId) =
      s.tasks.countP (fun u => u.id = taskId) := by
  have hteq : { t with completed := c } = t := by rw [← hc]
  refine ⟨?_, ?_, ?_⟩
  · rintro rfl
    simp only [toggleTaskStatus, hfind, if_true, ite_true]
    rw [hteq]
  · rintro rfl
    simp only [toggleTaskStatus, hfind, Bool.false_eq_true, if_false,
      ite_false]
    rw [hteq]
  · cases c <;>
      · simp only [toggleTaskStatus, hfind, Bool.false_eq_true, if_false,
          if_true, ite_true, ite_false]
        rw [List.countP_map]
        apply List.countP_congr
        intro u _
        by_cases h : u.id = taskId <;> simp [Function.comp, h]

/-- C4 witness: the round trip on the loaded state with task "t1". -/
theorem toggle_true_false_roundtrip_witness :
    (toggleTaskStatus (toggleTaskStatus editReady "t1" true (.ok ())) "t1"
        false (.ok ())).tasks =
      editReady.tasks.map (fun u =>
        if u.id = "t1" then { u with completed := false } else u) ∧
    { tOld with completed := false } ∈
      (toggleTaskStatus (toggleTaskStatus editReady "t1" true (.ok ())) "t1"
        false (.ok ())).notCompletedTasks :=
  toggle_true_false_roundtrip editReady "t1" tOld (by decide)

/-- C10 witness: toggling "t1" to completed twice in a row leaves two
entries for "t1" in the completed partition and a single entry in the
full mirror. -/
theorem toggle_same_flag_appends_duplicate_witness :
    ((true = true →
        (toggleTaskStatus toggledOnce "t1" true (.ok ())).completedTasks =
          toggledOnce.completedTasks ++ [{ tOld with completed := true }]) ∧
      (true = false →
        (toggleTaskStatus toggledOnce "t1" true (.ok ())).notCompletedTasks =
          toggledOnce.notCompletedTasks ++ [{ tOld with completed := true }]) ∧
      (toggleTaskStatus toggledOnce "t1" true (.ok ())).tasks.countP
          (fun u => u.id = "t1") =
        toggledOnce.tasks.countP (fun u => u.id = "t1")) ∧
    (toggleTaskStatus toggledOnce "t1" true (.ok ())).completedTasks.countP
        (fun u => u.id = "t1") = 2 ∧
    (toggleTaskStatus toggledOnce "t1" true (.ok ())).tasks.countP
        (fun u => u.id = "t1") = 1 :=
  ⟨toggle_same_flag_appends_duplicate toggledOnce "t1"
      { tOld with completed := true } true (by decide) (by decide),
    by decide, by decide⟩

/-- Membership in a container's id list. -/
theorem mem_idsOf {i : String} {l : List Task} :
    i ∈ idsOf l ↔ ∃ t ∈ l, t.id = i := by
  simp [idsOf]

/-- Filtering out an id from a container filters its id list. -/
theorem mem_idsOf_filter_ne {l : List Task} {p i : String} :
    i ∈ idsOf (l.filter (fun t => t.id ≠ p)) ↔ i ∈ idsOf l ∧ i ≠ p := by
  simp only [idsOf, List.mem_map, List.mem_filter, decide_not,
    Bool.not_eq_eq_eq_not, Bool.not_true, decide_eq_false_iff_not]
  constructor
  · rintro ⟨t, ⟨htl, htp⟩, rfl⟩
    exact ⟨⟨t, htl, rfl⟩, htp⟩
  · rintro ⟨⟨t, htl, rfl⟩, hip⟩
    exact ⟨t, ⟨htl, hip⟩, rfl⟩

/-- Mapping an id-preserving function leaves the id list unchanged. -/
theorem idsOf_map_pres (l : List Task) (f : Task → Task)
    (hf : ∀ t, (f t).id = t.id) : idsOf (l.map f) = idsOf l := by
  simp only [idsOf, List.map_map]
  exact List.map_congr_left fun a _ => hf a

/-- Id lists distribute over append. -/
theorem idsOf_append (l₁ l₂ : List Task) :
    idsOf (l₁ ++ l₂) = idsOf l₁ ++ idsOf l₂ := by
  simp [idsOf]

/-- The per-entry patch of `toggleTaskStatus` preserves ids. -/
theorem toggle_map_id_pres (taskId : String) (c : Bool) :
    ∀ t : Task,
      ((fun t => if t.id = taskId then { t with completed := c } else t)
        t).id = t.id := by
  intro t; by_cases h : t.id = taskId <;> simp [h]

/-- The per-entry patch of `editTask` preserves ids. -/
theorem edit_map_id_pres (tid : Option String) (n sid : String) :
    ∀ t : Task,
      ((fun t => if tid = some t.id then
          { t with name := n, subject_id := sid } else t) t).id = t.id := by
  intro t; by_cases h : tid = some t.id <;> simp [h]

/-- A successful load establishes the id-level partition invariant, given
the store's key contract (distinct row ids). -/
theorem pii_fetchData_ok (s : ManagerState) (subjectsData : List Subject)
    (tasksData : List Task) (hnodup : (tasksData.map Task.id).Nodup) :
    partitionIdInvariant (fetchData s (.ok (subjectsData, tasksData))) := by
  constructor
  · intro i
    show i ∈ idsOf tasksData ↔
      i ∈ idsOf (tasksData.filter fun t => !t.completed) ∨
      i ∈ idsOf (tasksData.filter fun t => t.completed)
    simp only [mem_idsOf, List.mem_filter]
    constructor
    · rintro ⟨t, htl, rfl⟩
      by_cases hc : t.completed
      · exact Or.inr ⟨t, ⟨htl, by simp [hc]⟩, rfl⟩
      · exact Or.inl ⟨t, ⟨htl, by simp [hc]⟩, rfl⟩
    · rintro (⟨t, ⟨htl, _⟩, rfl⟩ | ⟨t, ⟨htl, _⟩, rfl⟩) <;> exact ⟨t, htl, rfl⟩
  · intro i hi hic
    have hi' : i ∈ idsOf (tasksData.filter fun t => !t.completed) := hi
    have hic' : i ∈ idsOf (tasksData.filter fun t => t.completed) := hic
    simp only [mem_idsOf, List.mem_filter] at hi' hic'
    obtain ⟨t₁, ⟨h₁l, h₁c⟩, rfl⟩ := hi'
    obtain ⟨t₂, ⟨h₂l, h₂c⟩, hid⟩ := hic'
    have heq : t₂ = t₁ := List.inj_on_of_nodup_map hnodup h₂l h₁l hid
    rw [heq] at h₂c
    simp at h₁c h₂c
    exact absurd h₂c (by simp [h₁c])

/-- A successful addTask preserves the id-level partition invariant, given
the store's key contract (the generated id is fresh). -/
theorem pii_addTask_ok (s : ManagerState) (data : Task)
    (h : partitionIdInvariant s) (hfresh : data.id ∉ s.tasks.map Task.id) :
    partitionIdInvariant (addTask s (.ok data)) := by
  unfold addTask
  split
  · exact h
  · obtain ⟨hu, hd⟩ := h
    constructor
    · intro i
      show i ∈ idsOf (data :: s.tasks) ↔
        i ∈ idsOf (data :: s.notCompletedTasks) ∨ i ∈ idsOf s.completedTasks
      simp only [idsOf, List.map_cons, List.mem_cons]
      have := hu i
      simp only [idsOf] at this
      tauto
    · intro i hi hic
      have hi' : i ∈ idsOf (data :: s.notCompletedTasks) := hi
      have hic' : i ∈ idsOf s.completedTasks := hic
      simp only [idsOf, List.map_cons, List.mem_cons] at hi'
      rcases hi' with rfl | hi'
      · exact hfresh ((hu data.id).mpr (Or.inr hic'))
      · exact hd i hi' hic'

/-- editTask preserves the id-level partition invariant: it only renames
fields of partition entries, never their ids. -/
theorem pii_editTask (s : ManagerState) (n sid : String)
    (resp : Except Unit Unit) (h : partitionIdInvariant s) :
    partitionIdInvariant (editTask s n sid resp) := by
  cases resp with
  | error e => exact h
  | ok v =>
    obtain ⟨hu, hd⟩ := h
    constructor
    · intro i
      show i ∈ idsOf s.tasks ↔
        i ∈ idsOf (s.notCompletedTasks.map _) ∨
        i ∈ idsOf (s.completedTasks.map _)
      rw [idsOf_map_pres _ _ (edit_map_id_pres s.taskEditId _ _),
        idsOf_map_pres _ _ (edit_map_id_pres s.taskEditId _ _)]
      exact hu i
    · intro i hi hic
      rw [show (editTask s n sid (.ok v)).notCompletedTasks =
            s.notCompletedTasks.map _ from rfl,
          idsOf_map_pres _ _ (edit_map_id_pres s.taskEditId _ _)] at hi
      rw [show (editTask s n sid (.ok v)).completedTasks =
            s.completedTasks.map _ from rfl,
          idsOf_map_pres _ _ (edit_map_id_pres s.taskEditId _ _)] at hic
      exact hd i hi hic

/-- deleteTask preserves the id-level partition invariant. -/
theorem pii_deleteTask (s : ManagerState) (taskId : String)
    (resp : Except Unit Unit) (h : partitionIdInvariant s) :
    partitionIdInvariant (deleteTask s taskId resp) := by
  cases resp with
  | error e => exact h
  | ok v =>
    obtain ⟨hu, hd⟩ := h
    constructor
    · intro i
      show i ∈ idsOf (s.tasks.filter fun t => t.id ≠ taskId) ↔
        i ∈ idsOf (s.notCompletedTasks.filter fun t => t.id ≠ taskId) ∨
        i ∈ idsOf (s.completedTasks.filter fun t => t.id ≠ taskId)
      rw [mem_idsOf_filter_ne, mem_idsOf_filter_ne, mem_idsOf_filter_ne]
      have := hu i
      tauto
    · intro i hi hic
      rw [show (deleteTask s taskId (.ok v)).notCompletedTasks =
            s.notCompletedTasks.filter _ from rfl, mem_idsOf_filter_ne] at hi
      rw [show (deleteTask s taskId (.ok v)).completedTasks =
            s.completedTasks.filter _ from rfl, mem_idsOf_filter_ne] at hic
      exact hd i hi.1 hic.1

/-- toggleTaskStatus preserves the id-level partition invariant: the moved
id is appended to one partition and filtered from the other, and the full
mirror's ids are untouched. -/
theorem pii_toggleTaskStatus (s : ManagerState) (taskId : String) (c : Bool)
    (resp : Except Unit Unit) (h : partitionIdInvariant s) :
    partitionIdInvariant (toggleTaskStatus s taskId c resp) := by
  cases resp with
  | error e => exact h
  | ok v =>
    obtain ⟨hu, hd⟩ := h
    unfold toggleTaskStatus
    cases hfind : s.tasks.find? (fun t => t.id = taskId) with
    | none =>
      constructor
      · intro i
        show i ∈ idsOf (s.tasks.map _) ↔ _
        rw [idsOf_map_pres _ _ (toggle_map_id_pres taskId c)]
        exact hu i
      · exact hd
    | some u =>
      have huid : u.id = taskId := by simpa using List.find?_some hfind
      have humem : u ∈ s.tasks := List.mem_of_find?_eq_some hfind
      cases c with
      | true =>
        simp only [if_true, ite_true]
        constructor
        · intro i
          show i ∈ idsOf (s.tasks.map _) ↔
            i ∈ idsOf (s.notCompletedTasks.filter fun t => t.id ≠ taskId) ∨
            i ∈ idsOf (s.completedTasks ++ [{ u with completed := true }])
          rw [idsOf_map_pres _ _ (toggle_map_id_pres taskId true),
            idsOf_append]
          constructor
          · intro hi
            by_cases hip : i = taskId
            · refine Or.inr (List.mem_append.mpr (Or.inr ?_))
              simp [idsOf, hip, huid]
            · rcases (hu i).mp hi with hnc | hc
              · exact Or.inl (mem_idsOf_filter_ne.mpr ⟨hnc, hip⟩)
              · exact Or.inr (List.mem_append.mpr (Or.inl hc))
          · intro hi
            rcases hi with hnc | hc
            · exact (hu i).mpr (Or.inl (mem_idsOf_filter_ne.mp hnc).1)
            · rcases List.mem_append.mp hc with hc | hx
              · exact (hu i).mpr (Or.inr hc)
              · have hix : i = u.id := by simpa [idsOf] using hx
                exact mem_idsOf.mpr ⟨u, humem, hix.symm⟩
        · intro i hi hic
          have hi' :
              i ∈ idsOf (s.notCompletedTasks.filter fun t => t.id ≠ taskId) :=
            hi
          have hic' :
              i ∈ idsOf (s.completedTasks ++ [{ u with completed := true }]) :=
            hic
          obtain ⟨hinc, hip⟩ := mem_idsOf_filter_ne.mp hi'
          rw [idsOf_append] at hic'
          rcases List.mem_append.mp hic' with hic' | hx
          · exact hd i hinc hic'
          · exact hip (by simpa [idsOf, huid] using hx)
      | false =>
        simp only [Bool.false_eq_true, if_false, ite_false]
        constructor
        · intro i
          show i ∈ idsOf (s.tasks.map _) ↔
            i ∈ idsOf (s.notCompletedTasks ++ [{ u with completed := false }]) ∨
            i ∈ idsOf (s.completedTasks.filter fun t => t.id ≠ taskId)
          rw [idsOf_map_pres _ _ (toggle_map_id_pres taskId false),
            idsOf_append]
          constructor
          · intro hi
            by_cases hip : i = taskId
            · refine Or.inl (List.mem_append.mpr (Or.inr ?_))
              simp [idsOf, hip, huid]
            · rcases (hu i).mp hi with hnc | hc
              · exact Or.inl (List.mem_append.mpr (Or.inl hnc))
              · exact Or.inr (mem_idsOf_filter_ne.mpr ⟨hc, hip⟩)
          · intro hi
            rcases hi with hnc | hc
            · rcases List.mem_append.mp hnc with hnc | hx
              · exact (hu i).mpr (Or.inl hnc)
              · have hix : i = u.id := by simpa [idsOf] using hx
                exact mem_idsOf.mpr ⟨u, humem, hix.symm⟩
            · exact (hu i).mpr (Or.inr (mem_idsOf_filter_ne.mp hc).1)
        · intro i hi hic
          have hi' :
              i ∈ idsOf (s.notCompletedTasks ++ [{ u with completed := false }]) :=
            hi
          have hic' :
              i ∈ idsOf (s.completedTasks.filter fun t => t.id ≠ taskId) :=
            hic
          obtain ⟨hicc, hip⟩ := mem_idsOf_filter_ne.mp hic'
          rw [idsOf_append] at hi'
          rcases List.mem_append.mp hi' with hi' | hx
          · exact hd i hi' hicc
          · exact hip (by simpa [idsOf, huid] using hx)

/-- C2: every state reachable from the initial state by the component's
operations satisfies the id-level partition invariant — the incomplete and
completed partitions' id sets union to the full mirror's id set and are
disjoint. -/
theorem reachable_partitionIdInvariant (s : ManagerState)
    (h : Reachable s) : partitionIdInvariant s := by
  induction h with
  | init =>
      exact ⟨fun i => by simp [initialState, idsOf],
        fun i hi => by simp [initialState, idsOf] at hi⟩
  | loadErr _ ih => exact ih
  | loadOk _ hnodup _ => exact pii_fetchData_ok _ _ _ hnodup
  | addSubjectStep hr ih =>
      rename_i s₀ resp
      unfold addSubject
      split
      · exact ih
      · cases resp
        · exact ih
        · exact ih
  | addTaskErr hr ih =>
      unfold addTask
      split
      · exact ih
      · exact ih
  | addTaskOk _ hfresh ih => exact pii_addTask_ok _ _ ih hfresh
  | editTaskStep _ ih => exact pii_editTask _ _ _ _ ih
  | deleteTaskStep _ ih => exact pii_deleteTask _ _ _ ih
  | toggleStep _ ih => exact pii_toggleTaskStatus _ _ _ _ ih
  | setForm nsn ntn ssid tid m1 m2 m3 m4 _ ih => exact ih

/-- C2 witness: the invariant at the concrete reachable state obtained by
loading the single task `tOld`. -/
theorem reachable_partitionIdInvariant_witness :
    partitionIdInvariant loadedOld :=
  reachable_partitionIdInvariant loadedOld
    (Reachable.loadOk Reachable.init (by decide))

end TaskManager
